import Mathlib

/-!
Verification model of the MongoDB model-import checker extension.

The core of the extension (see `checkDocument`, `getImportedModels`,
`findModelMethodUsages`, `extractModelName`, `createImportAction` and
`findImportInsertPosition` in the source) is a line-oriented textual
analysis.  We embed it shallowly: strings are `String` / `List Char`,
JavaScript regular expressions are translated into explicit character
scanning functions that reproduce the backtracking behaviour of the
concrete patterns used by the source (all of which are simple enough
that greedy runs are forced), and the JavaScript `Set` of imported
names is modelled as a list used only through membership.
-/

namespace ImportChecker

/-- JavaScript `\s` restricted to the ASCII whitespace characters that
can realistically occur in source lines. -/
def isWs (c : Char) : Bool :=
  c = ' ' || c = '\t' || c = '\r' || c = '\n' || c = Char.ofNat 11 || c = Char.ofNat 12

/-- JavaScript `\w`, i.e. `[A-Za-z0-9_]`. -/
def isWordChar (c : Char) : Bool :=
  ('a' ≤ c && c ≤ 'z') || ('A' ≤ c && c ≤ 'Z') || ('0' ≤ c && c ≤ '9') || c = '_'

/-- The `[A-Z]` character class. -/
def isUpperAZ (c : Char) : Bool :=
  'A' ≤ c && c ≤ 'Z'

/-- Boolean prefix test on character lists. -/
def prefixOfCh : List Char → List Char → Bool
  | [], _ => true
  | _ :: _, [] => false
  | x :: xs, y :: ys => x == y && prefixOfCh xs ys

/-- Substring containment, modelling JavaScript `String.prototype.includes`. -/
def hasSub (sub : List Char) : List Char → Bool
  | [] => sub.isEmpty
  | c :: rest => prefixOfCh sub (c :: rest) || hasSub sub rest

/-- JavaScript `String.prototype.trim` on a character list. -/
def trimChars (l : List Char) : List Char :=
  ((l.dropWhile isWs).reverse.dropWhile isWs).reverse

/-- JavaScript `String.prototype.split` with a single-character separator
(used by the source with `"\n"` and `","`, and to recover the alternation
produced by `modelMethods.join("|")`). -/
def splitOnChar (sep : Char) : List Char → List (List Char)
  | [] => [[]]
  | c :: rest =>
    if c == sep then [] :: splitOnChar sep rest
    else
      match splitOnChar sep rest with
      | h :: t => (c :: h) :: t
      | [] => [[c]]

/-- The lines of a document, as produced by `text.split("\n")`. -/
def textLines (text : String) : List (List Char) :=
  splitOnChar '\n' text.data

/-- `modelMethods.join("|")`. -/
def joinBar : List String → List Char
  | [] => []
  | [s] => s.data
  | s :: rest => s.data ++ '|' :: joinBar rest

/-- The alternatives of the method alternation in the usage regex
`` `\b([A-Z][a-zA-Z0-9_]*)\.(${modelMethods.join("|")})\b` ``: joining the
configured names with `|` and reading the result back as an alternation.
For the empty configuration the joined pattern is the empty string, which
is a single empty alternative. -/
def methodAlternatives (modelMethods : List String) : List (List Char) :=
  splitOnChar '|' (joinBar modelMethods)

/-- Whether the character at index `i` (if any) is a word character. -/
def charWordAt (cs : List Char) (i : Nat) : Bool :=
  match cs[i]? with
  | some c => isWordChar c
  | none => false

/-- Whether the character just before index `i` is a word character
(start of line counts as non-word). -/
def prevWordAt (cs : List Char) (i : Nat) : Bool :=
  if i = 0 then false else charWordAt cs (i - 1)

/-- The JavaScript `\b` word-boundary assertion at index `i`. -/
def boundaryAt (cs : List Char) (i : Nat) : Bool :=
  prevWordAt cs i != charWordAt cs i

/-- Try the alternatives of the method alternation, in order, at index `r`
of the line; each alternative is matched literally and must be followed by
a word boundary, exactly as the trailing `\b` of the usage regex demands. -/
def findAlt (cs : List Char) (r : Nat) : List (List Char) → Option (List Char)
  | [] => none
  | a :: rest =>
    if prefixOfCh a (cs.drop r) && boundaryAt cs (r + a.length) then some a
    else findAlt cs r rest

/-- Attempt to match `\b([A-Z][a-zA-Z0-9_]*)\.(alts)\b` starting exactly at
index `p`.  The leading `\b` together with `[A-Z]` forces the previous
character to be a non-word character; the identifier star is forced to the
maximal word-character run because backtracking it can never reach the
required literal dot.  Returns the head character and tail of the
identifier together with the matched method alternative. -/
def tryMatchAt (cs : List Char) (alts : List (List Char)) (p : Nat) :
    Option (Char × List Char × List Char) :=
  if prevWordAt cs p then none
  else
    match cs[p]? with
    | none => none
    | some c =>
      if isUpperAZ c then
        let rest := (cs.drop (p + 1)).takeWhile isWordChar
        match cs[p + (rest.length + 1)]? with
        | some d =>
          if d = '.' then
            match findAlt cs (p + rest.length + 2) alts with
            | some meth => some (c, rest, meth)
            | none => none
          else none
        | none => none
      else none

/-- A usage site reported by the usage scanner: the diagnostic range spans
exactly the identifier token. -/
structure Usage where
  line : Nat
  startCol : Nat
  endCol : Nat
  modelName : String
  methodName : String
deriving DecidableEq

/-- The `while ((match = modelMethodRegex.exec(line)) !== null)` loop: the
global regex searches for the leftmost match at or after `lastIndex` and
then continues from the end of that match.  `fuel` is one more than the
line length, enough for the position to cross the whole line. -/
def usagesGo (alts : List (List Char)) (lineIdx : Nat) (cs : List Char) :
    Nat → Nat → List Usage
  | 0, _ => []
  | fuel + 1, p =>
    if cs.length ≤ p then []
    else
      match tryMatchAt cs alts p with
      | some (c, rest, meth) =>
        { line := lineIdx, startCol := p, endCol := p + (rest.length + 1),
          modelName := String.mk (c :: rest), methodName := String.mk meth } ::
          usagesGo alts lineIdx cs fuel (p + rest.length + 2 + meth.length)
      | none => usagesGo alts lineIdx cs fuel (p + 1)

/-- All matches of the usage regex on one line, left to right. -/
def usagesOfLine (alts : List (List Char)) (lineIdx : Nat) (cs : List Char) :
    List Usage :=
  usagesGo alts lineIdx cs (cs.length + 1) 0

/-- The `=\s*require` search inside the skip test
`/^\s*(import|const|let|var)\s+.*?=\s*require/`: some later `=` followed by
optional whitespace and the literal `require`. -/
def requireAfterEq : List Char → Bool
  | [] => false
  | c :: rest =>
    (c = '=' && prefixOfCh "require".data (rest.dropWhile isWs)) || requireAfterEq rest

/-- Test for `(kw)\s+.*?=\s*require` anchored at the start of `t`, for a
list of keyword alternatives. -/
def kwRequireTest (kws : List (List Char)) (t : List Char) : Bool :=
  kws.any fun kw =>
    prefixOfCh kw t &&
      (match t.drop kw.length with
       | c :: rest => isWs c && requireAfterEq rest
       | [] => false)

/-- Test for `/^\s*import\s+/` on an already whitespace-stripped line. -/
def importStartTest (t : List Char) : Bool :=
  prefixOfCh "import".data t &&
    (match t.drop 6 with
     | c :: _ => isWs c
     | [] => false)

/-- The usage scanner's skip test for import/require lines. -/
def scanSkipTest (l : List Char) : Bool :=
  kwRequireTest ["import".data, "const".data, "let".data, "var".data]
      (l.dropWhile isWs) ||
    importStartTest (l.dropWhile isWs)

/-- The per-line loop of `findModelMethodUsages`: multi-line comment
tracking, single-line comment skipping, import/require skipping, then the
global regex matches of the line. -/
def scanLines (alts : List (List Char)) (inML : Bool) (idx : Nat) :
    List (List Char) → List Usage
  | [] => []
  | l :: rest =>
    let t := trimChars l
    let inML1 := inML || hasSub "/*".data t
    if inML1 then
      scanLines alts (!hasSub "*/".data t) (idx + 1) rest
    else if prefixOfCh "//".data t then
      scanLines alts false (idx + 1) rest
    else if scanSkipTest l then
      scanLines alts false (idx + 1) rest
    else
      usagesOfLine alts idx l ++ scanLines alts false (idx + 1) rest

/-- `findModelMethodUsages(text, modelMethods, document)` from the source. -/
def findModelMethodUsages (text : String) (modelMethods : List String) :
    List Usage :=
  scanLines (methodAlternatives modelMethods) false 0 (textLines text)

/-- The `\s+from\s+['"]` tail of the ES6 import regex, starting right
after the bound-name part: at least one whitespace character, the literal
`from`, at least one whitespace character, then a quote. -/
def fromClause (s : List Char) : Bool :=
  match s with
  | c :: rest =>
    isWs c &&
      (let t := rest.dropWhile isWs
       prefixOfCh "from".data t &&
         (match t.drop 4 with
          | d :: rest2 =>
            isWs d &&
              (match rest2.dropWhile isWs with
               | q :: _ => q = '\'' || q = '"'
               | [] => false)
          | [] => false))
  | [] => false

/-- The capture produced by one match of the ES6 import regex
`/import\s+(?:(\w+)|{([^}]+)}|\*\s+as\s+(\w+))\s+from\s+['"]/`:
exactly one of the three groups is set. -/
inductive Es6Groups where
  | deflt (name : List Char)
  | named (inner : List Char)
  | star (name : List Char)
deriving DecidableEq

/-- Attempt the ES6 import regex with the match starting exactly at the
head of the suffix `s`.  The first character after `import\s+` decides the
alternative (`\w`, `{` and `*` are mutually exclusive), and every greedy
run is forced because the character that must follow it can never be part
of the run. -/
def es6MatchAt (s : List Char) : Option Es6Groups :=
  if prefixOfCh "import".data s then
    match s.drop 6 with
    | c :: rest =>
      if isWs c then
        let t := rest.dropWhile isWs
        match t with
        | d :: _ =>
          if isWordChar d then
            let name := t.takeWhile isWordChar
            if fromClause (t.drop name.length) then some (.deflt name) else none
          else if d = '\x7b' then
            let inner := (t.drop 1).takeWhile (fun x => x ≠ '\x7d')
            if inner.isEmpty then none
            else
              match t.drop (1 + inner.length) with
              | '\x7d' :: after => if fromClause after then some (.named inner) else none
              | _ => none
          else if d = '*' then
            match t.drop 1 with
            | e :: rest2 =>
              if isWs e then
                let u := rest2.dropWhile isWs
                if prefixOfCh "as".data u then
                  match u.drop 2 with
                  | f :: _ =>
                    if isWs f then
                      let v := (u.drop 2).dropWhile isWs
                      match v with
                      | g :: _ =>
                        if isWordChar g then
                          let name := v.takeWhile isWordChar
                          if fromClause (v.drop name.length) then some (.star name)
                          else none
                        else none
                      | [] => none
                    else none
                  | [] => none
                else none
              else none
            | [] => none
          else none
        | [] => none
      else none
    | [] => none
  else none

/-- `line.match(es6ImportRegex)`: the leftmost match, found by trying the
pattern at every start position from left to right. -/
def es6Scan : List Char → Option Es6Groups
  | [] => none
  | c :: rest =>
    match es6MatchAt (c :: rest) with
    | some g => some g
    | none => es6Scan rest

/-- The capture produced by one match of the CommonJS require regex
`/(?:const|let|var)\s+(?:(\w+)|{([^}]+)})\s*=\s*require\s*\(/`. -/
inductive ReqGroups where
  | single (name : List Char)
  | destruct (inner : List Char)
deriving DecidableEq

/-- The `\s*=\s*require\s*\(` tail of the require regex. -/
def reqTail (s : List Char) : Bool :=
  match s.dropWhile isWs with
  | '=' :: rest =>
    let t := rest.dropWhile isWs
    prefixOfCh "require".data t &&
      (match (t.drop 7).dropWhile isWs with
       | '(' :: _ => true
       | _ => false)
  | _ => false

/-- Attempt the require regex with the match starting exactly at the head
of the suffix `s`. -/
def reqMatchAt (s : List Char) : Option ReqGroups :=
  let kwLen : Option Nat :=
    if prefixOfCh "const".data s then some 5
    else if prefixOfCh "let".data s then some 3
    else if prefixOfCh "var".data s then some 3
    else none
  match kwLen with
  | none => none
  | some k =>
    match s.drop k with
    | c :: rest =>
      if isWs c then
        let t := rest.dropWhile isWs
        match t with
        | d :: _ =>
          if isWordChar d then
            let name := t.takeWhile isWordChar
            if reqTail (t.drop name.length) then some (.single name) else none
          else if d = '\x7b' then
            let inner := (t.drop 1).takeWhile (fun x => x ≠ '\x7d')
            if inner.isEmpty then none
            else
              match t.drop (1 + inner.length) with
              | '\x7d' :: after => if reqTail after then some (.destruct inner) else none
              | _ => none
          else none
        | [] => none
      else none
    | [] => none

/-- `line.match(requireRegex)`: the leftmost match. -/
def reqScan : List Char → Option ReqGroups
  | [] => none
  | c :: rest =>
    match reqMatchAt (c :: rest) with
    | some g => some g
    | none => reqScan rest

/-- Match start of `\s+as\s+` at the head of `s` (used by
`name.trim().split(/\s+as\s+/)`): at least one whitespace character, then
the literal `as`, then at least one whitespace character. -/
def asMatchAt (s : List Char) : Bool :=
  match s with
  | c :: rest =>
    isWs c &&
      (let t := rest.dropWhile isWs
       prefixOfCh "as".data t &&
         (match t.drop 2 with
          | d :: _ => isWs d
          | [] => false))
  | [] => false

/-- `entry.split(/\s+as\s+/)[0]`: the prefix before the first match of
`\s+as\s+` (or the whole string when there is none). -/
def asHead : List Char → List Char
  | [] => []
  | c :: rest => if asMatchAt (c :: rest) then [] else c :: asHead rest

/-- Match start of `\s*:\s*` at the head of `s`: optional whitespace
directly followed by a colon. -/
def colonMatchAt (s : List Char) : Bool :=
  match s.dropWhile isWs with
  | ':' :: _ => true
  | _ => false

/-- `entry.split(/\s*:\s*/)[0]`: the prefix before the first match of
`\s*:\s*` (or the whole string when there is none). -/
def colonHead : List Char → List Char
  | [] => []
  | c :: rest => if colonMatchAt (c :: rest) then [] else c :: colonHead rest

/-- The names added for one ES6 import match: the default or namespace
name directly, or each comma-separated entry of a named import trimmed,
cut before `as`, and trimmed again. -/
def es6Names : Es6Groups → List (List Char)
  | .deflt n => [n]
  | .named inner => (splitOnChar ',' inner).map (fun e => trimChars (asHead (trimChars e)))
  | .star n => [n]

/-- The names added for one require match: the single name directly, or
each comma-separated entry of a destructuring trimmed, cut before `:`,
and trimmed again. -/
def reqNames : ReqGroups → List (List Char)
  | .single n => [n]
  | .destruct inner => (splitOnChar ',' inner).map (fun e => trimChars (colonHead (trimChars e)))

/-- The per-line loop of `getImportedModels`: multi-line comment tracking
and single-line comment skipping exactly as in the usage scanner, then the
first ES6 import match and the first require match of the line. -/
def binderLines (inML : Bool) : List (List Char) → List (List Char)
  | [] => []
  | l :: rest =>
    let t := trimChars l
    let inML1 := inML || hasSub "/*".data t
    if inML1 then
      binderLines (!hasSub "*/".data t) rest
    else if prefixOfCh "//".data t then
      binderLines false rest
    else
      (match es6Scan l with
       | some g => es6Names g
       | none => []) ++
      (match reqScan l with
       | some g => reqNames g
       | none => []) ++
      binderLines false rest

/-- `getImportedModels(text)` from the source.  The JavaScript `Set` is
modelled as the list of added names in insertion order; it is consumed
only through membership. -/
def getImportedModels (text : String) : List String :=
  (binderLines false (textLines text)).map String.mk

/-- A finding, carrying the diagnostic range and message of the produced
diagnostic. -/
structure Finding where
  line : Nat
  startCol : Nat
  endCol : Nat
  modelName : String
  message : String
deriving DecidableEq

/-- The message of a finding for `name`. -/
def mkMessage (name : String) : String :=
  "Model '" ++ name ++ "' is not imported. Please import the model before using it."

/-- The reconciliation loop of `checkDocument`: one finding per usage
whose identifier is not in the imported set. -/
def scanFindings (text : String) (modelMethods : List String) : List Finding :=
  let imported := getImportedModels text
  let usages := findModelMethodUsages text modelMethods
  (usages.filter (fun u => !(imported.contains u.modelName))).map
    (fun u =>
      { line := u.line, startCol := u.startCol, endCol := u.endCol,
        modelName := u.modelName, message := mkMessage u.modelName })

/-- Attempt the regex `/Model '(\w+)' is not imported/` with the match
starting exactly at the head of the suffix `s`. -/
def extractAt (s : List Char) : Option (List Char) :=
  if prefixOfCh "Model '".data s then
    if !((s.drop ("Model '".data.length)).takeWhile isWordChar).isEmpty &&
        prefixOfCh "' is not imported".data
          ((s.drop ("Model '".data.length)).drop
            (((s.drop ("Model '".data.length)).takeWhile isWordChar).length)) then
      some ((s.drop ("Model '".data.length)).takeWhile isWordChar)
    else none
  else none

/-- Leftmost match of the model-name extraction regex. -/
def extractScan : List Char → Option (List Char)
  | [] => none
  | c :: rest =>
    match extractAt (c :: rest) with
    | some n => some n
    | none => extractScan rest

/-- `extractModelName(message)` from the code action provider. -/
def extractModelName (message : String) : Option String :=
  (extractScan message.data).map String.mk

/-- The test whether a trimmed line registers as an import/require line in
`findImportInsertPosition`: `line.startsWith("import ")` or
`/^(const|let|var)\s+.*=\s*require/.test(line)`. -/
def importReqLineTest (t : List Char) : Bool :=
  prefixOfCh "import ".data t ||
    kwRequireTest ["const".data, "let".data, "var".data] t

/-- The loop-break test of `findImportInsertPosition`: a non-blank line
that is not an import line, not a comment line, and not a require line. -/
def realCodeTest (t : List Char) : Bool :=
  !t.isEmpty && !prefixOfCh "import ".data t && !prefixOfCh "//".data t &&
    !prefixOfCh "/*".data t && !prefixOfCh "*".data t &&
    !kwRequireTest ["const".data, "let".data, "var".data] t

/-- The scanning loop of `findImportInsertPosition`: remember the index of
the last import/require line, and stop at the first real-code line once at
least one import/require line has been seen. -/
def insertLoop : List (List Char) → Option Nat → Nat → Option Nat
  | [], last, _ => last
  | l :: rest, last, i =>
    let t := trimChars l
    let last1 := if importReqLineTest t then some i else last
    if realCodeTest t && last1.isSome then last1
    else insertLoop rest last1 (i + 1)

/-- `findImportInsertPosition(document)` as a (line, column) pair. -/
def findImportInsertPosition (text : String) : Nat × Nat :=
  match insertLoop (textLines text) none 0 with
  | some k => (k + 1, 0)
  | none => (0, 0)

/-- A fix action: insertion point plus the statement text to insert. -/
structure FixAction where
  insertLine : Nat
  insertCol : Nat
  statement : String
deriving DecidableEq

/-- `createImportAction` for the `default` import type offered by the
quick fix: the canonical statement inserted at the computed position. -/
def synthesizeFix (text : String) (modelName : String) : FixAction :=
  let pos := findImportInsertPosition text
  { insertLine := pos.1, insertCol := pos.2,
    statement := "import " ++ modelName ++ " from \"./models/" ++ modelName ++ "\";\n" }

/-- The comment classification both per-line loops apply: a line is
excluded when the multi-line comment state (updated by `/*` before the
check and by `*/` after it) is set, or when its trimmed form starts with
`//`. -/
def commentFlags (inML : Bool) : List (List Char) → List Bool
  | [] => []
  | l :: rest =>
    let t := trimChars l
    let inML1 := inML || hasSub "/*".data t
    if inML1 then true :: commentFlags (!hasSub "*/".data t) rest
    else (prefixOfCh "//".data t) :: commentFlags false rest

/-- The default `modelMethods` configuration value of `checkDocument`. -/
def defaultModelMethods : List String :=
  ["find", "findOne", "findById", "findOneAndUpdate", "findByIdAndUpdate",
   "findOneAndDelete", "findByIdAndDelete", "findOneAndRemove",
   "findByIdAndRemove", "findOneAndReplace", "where", "exists", "distinct",
   "create", "insertMany", "save", "update", "updateOne", "updateMany",
   "replaceOne", "remove", "deleteOne", "deleteMany", "count",
   "countDocuments", "estimatedDocumentCount", "aggregate", "mapReduce",
   "populate", "validate", "validateSync", "createIndexes", "ensureIndexes",
   "syncIndexes", "listIndexes", "watch", "bulkWrite", "hydrate", "init",
   "startSession", "translateAliases", "discriminator", "on", "once", "emit"]

/-! ### Basic lemmas about the scanning primitives -/

theorem prefixOfCh_append (xs ys : List Char) : prefixOfCh xs (xs ++ ys) = true := by
  induction xs with
  | nil => rfl
  | cons x xs ih => simp [prefixOfCh, ih]

theorem takeWhile_append_all (p : Char → Bool) (xs ys : List Char)
    (h : ∀ x ∈ xs, p x = true) :
    (xs ++ ys).takeWhile p = xs ++ ys.takeWhile p := by
  induction xs with
  | nil => simp
  | cons x xs ih =>
    simp only [List.cons_append, List.takeWhile_cons, h x (List.mem_cons_self x xs)]
    rw [ih (fun a ha => h a (List.mem_cons_of_mem x ha))]
    simp

theorem drop_length_append (xs ys : List Char) : (xs ++ ys).drop xs.length = ys := by
  simp

theorem contains_of_mem {l : List String} {a : String} (h : a ∈ l) :
    l.contains a = true :=
  List.elem_iff.mpr h

/-! ### Claim theorems on concrete scenarios -/

/-- Claim C3: end-to-end scenario A.  Scanning the three-line input
`async function f() { / await User.updateOne({}, {}); / }` with the
default configuration produces exactly one finding, for identifier
`User`, spanning columns 8 to 12 of line 1, with the documented
message. -/
theorem c3_scenario_a :
    scanFindings "async function f() \x7b\n  await User.updateOne(\x7b\x7d, \x7b\x7d);\n\x7d"
        defaultModelMethods =
      [{ line := 1, startCol := 8, endCol := 12, modelName := "User",
         message := "Model 'User' is not imported. Please import the model before using it." }] := by
  decide

/-- Claim C4: the import binder binds the left-hand name of each entry:
`import { A, B as C } from '...'` binds A and B, and
`const { A, B: C } = require(...)` binds A and B. -/
theorem c4_binder_left_names :
    getImportedModels "import \x7b A, B as C \x7d from './models'" = ["A", "B"] ∧
    getImportedModels "const \x7b A, B: C \x7d = require('./models')" = ["A", "B"] := by
  exact ⟨by decide, by decide⟩

/-- Claim C1, counterexample: scenario D claims zero findings for
`const { A, B: C } = require("./models");` followed by `await C.find({});`,
but the scan produces a finding (the destructured require binds the
left-hand key `B`, not the alias `C`). -/
theorem c1_counterexample :
    scanFindings "const \x7b A, B: C \x7d = require(\"./models\");\nawait C.find(\x7b\x7d);"
        defaultModelMethods ≠ [] := by
  decide

/-- Claim C1, amended: for scenario D's input the binder binds `A` and
`B` (the keys before the `:` rename), so the scan produces exactly one
finding, for the alias `C` used on line 1. -/
theorem c1_scenario_d :
    getImportedModels "const \x7b A, B: C \x7d = require(\"./models\");\nawait C.find(\x7b\x7d);" =
      ["A", "B"] ∧
    scanFindings "const \x7b A, B: C \x7d = require(\"./models\");\nawait C.find(\x7b\x7d);"
        defaultModelMethods =
      [{ line := 1, startCol := 6, endCol := 7, modelName := "C",
         message := mkMessage "C" }] := by
  exact ⟨by decide, by decide⟩

/-- Claim C2, counterexample: with the empty method allowlist the claim
predicts zero findings for every input, but scanning `await X.y;` with
the empty allowlist produces a finding: the joined pattern is an empty
alternative, which matches `X.` followed by any word character. -/
theorem c2_counterexample :
    scanFindings "await X.y;" [] ≠ [] := by
  decide

/-- Claim C7, counterexample: for the input `doStuff();` followed by
`import A from 'a';`, line 0 is a real-code line and no import/require
line precedes it, so the claim predicts insertion at (0, 0); the code
keeps scanning because no import has been seen yet and returns (2, 0). -/
theorem c7_counterexample :
    findImportInsertPosition "doStuff();\nimport A from 'a';" = (2, 0) ∧
    realCodeTest (trimChars "doStuff();".data) = true ∧
    importReqLineTest (trimChars "doStuff();".data) = false := by
  exact ⟨by decide, by decide, by decide⟩

/-- Claim C10, counterexample: the claim predicts that every import-shaped
substring of a non-comment line binds its name, but `line.match` uses only
the first match per line: a line containing both `import A from 'a'` and
`import B from 'b'` (inside string literals) binds only `A`, and a usage
of `B` on the next line still produces a finding. -/
theorem c10_counterexample :
    hasSub "import B from 'b'".data
        "x = \"import A from 'a'\" + \"import B from 'b'\";".data = true ∧
    commentFlags false
        (textLines "x = \"import A from 'a'\" + \"import B from 'b'\";\nawait B.find(\x7b\x7d);") =
      [false, false] ∧
    ("B" ∈ getImportedModels
        "x = \"import A from 'a'\" + \"import B from 'b'\";\nawait B.find(\x7b\x7d);" → False) ∧
    scanFindings "x = \"import A from 'a'\" + \"import B from 'b'\";\nawait B.find(\x7b\x7d);"
        defaultModelMethods ≠ [] := by
  exact ⟨by decide, by decide, by decide, by decide⟩

/-- Claim C10, amended: the binder's patterns are indeed not anchored to
the start of the line — a line containing `import X from '...'` or
`const X = require(` after other code on the same line binds `X`, and
findings for `X` are suppressed file-wide — but only the first match of
each category on a line binds. -/
theorem c10_unanchored_first_match :
    getImportedModels "foo(); import User from 'u';\nbar(); const Db = require('db');\nawait User.find(\x7b\x7d);\nawait Db.findOne(\x7b\x7d);" =
      ["User", "Db"] ∧
    scanFindings "foo(); import User from 'u';\nbar(); const Db = require('db');\nawait User.find(\x7b\x7d);\nawait Db.findOne(\x7b\x7d);"
        defaultModelMethods = [] := by
  exact ⟨by decide, by decide⟩

/-! ### Reconciliation suppresses bound names -/

/-- Claim C5: for every identifier name bound by any of the recognized
binder forms on a non-comment line — that is, every member of
`getImportedModels` — the scan produces zero findings for that name,
regardless of where the usage sits relative to the binding line: the
binder collects bindings from the whole file before reconciliation. -/
theorem c5_bound_name_suppressed (text : String) (methods : List String) (N : String)
    (h : N ∈ getImportedModels text) :
    ∀ f ∈ scanFindings text methods, f.modelName ≠ N := by
  intro f hf heq
  simp only [scanFindings, List.mem_map, List.mem_filter] at hf
  obtain ⟨u, ⟨hu, hcont⟩, rfl⟩ := hf
  simp only at heq
  rw [heq, contains_of_mem h] at hcont
  simp at hcont

/-- Witness for C5: `User` is bound on line 1 while the usage sits on
line 0, and the scan reports nothing for `User`. -/
theorem c5_witness :
    "User" ∈ getImportedModels "await User.find(\x7b\x7d);\nimport User from './models/User';" ∧
    ∀ f ∈ scanFindings "await User.find(\x7b\x7d);\nimport User from './models/User';"
        defaultModelMethods, f.modelName ≠ "User" :=
  ⟨by decide,
   c5_bound_name_suppressed "await User.find(\x7b\x7d);\nimport User from './models/User';"
     defaultModelMethods "User" (by decide)⟩

/-! ### Determinism and shape of the synthesized fix -/

theorem insertPosition_col (text : String) : (findImportInsertPosition text).2 = 0 := by
  unfold findImportInsertPosition
  cases insertLoop (textLines text) none 0 <;> rfl

/-- Claim C8: `synthesizeFix` is a pure function of the document text and
the target identifier — two invocations agree — and the synthesized
statement is exactly `import <Name> from "./models/<Name>";` followed by
a newline, inserted at column 0 of the computed insertion line. -/
theorem c8_fix_deterministic (text name : String) :
    synthesizeFix text name = synthesizeFix text name ∧
    (synthesizeFix text name).statement =
      "import " ++ name ++ " from \"./models/" ++ name ++ "\";\n" ∧
    (synthesizeFix text name).insertCol = 0 ∧
    (synthesizeFix text name).insertLine = (findImportInsertPosition text).1 :=
  ⟨rfl, rfl, insertPosition_col text, rfl⟩

/-! ### The empty allowlist -/

theorem findAlt_mem {cs : List Char} {r : Nat} {alts : List (List Char)} {m : List Char}
    (h : findAlt cs r alts = some m) : m ∈ alts := by
  induction alts with
  | nil => simp [findAlt] at h
  | cons a rest ih =>
    simp only [findAlt] at h
    split at h
    · injection h with h'
      exact h' ▸ List.mem_cons_self a rest
    · exact List.mem_cons_of_mem a (ih h)

theorem tryMatchAt_meth_mem {cs : List Char} {alts : List (List Char)} {p : Nat}
    {c : Char} {rest meth : List Char}
    (h : tryMatchAt cs alts p = some (c, rest, meth)) : meth ∈ alts := by
  simp only [tryMatchAt] at h
  split at h
  · exact Option.noConfusion h
  · split at h
    · exact Option.noConfusion h
    · split at h
      · split at h
        · split at h
          · split at h
            · rename_i meth0 halt
              injection h with h'
              have hm : meth0 = meth := congrArg (fun q => q.2.2) h'
              exact hm ▸ findAlt_mem halt
            · exact Option.noConfusion h
          · exact Option.noConfusion h
        · exact Option.noConfusion h
      · exact Option.noConfusion h

theorem usagesGo_meth_mem (alts : List (List Char)) (lineIdx : Nat) (cs : List Char) :
    ∀ fuel p u, u ∈ usagesGo alts lineIdx cs fuel p →
      ∃ m ∈ alts, u.methodName = String.mk m := by
  intro fuel
  induction fuel with
  | zero => intro p u hu; simp [usagesGo] at hu
  | succ n ih =>
    intro p u hu
    simp only [usagesGo] at hu
    split at hu
    · simp at hu
    · split at hu
      · rename_i c0 rest0 meth0 hmatch
        rcases List.mem_cons.mp hu with h1 | h2
        · exact ⟨meth0, tryMatchAt_meth_mem hmatch, by rw [h1]⟩
        · exact ih _ u h2
      · exact ih _ u hu

theorem scanLines_meth_mem (alts : List (List Char)) :
    ∀ ls inML idx u, u ∈ scanLines alts inML idx ls →
      ∃ m ∈ alts, u.methodName = String.mk m := by
  intro ls
  induction ls with
  | nil => intro inML idx u hu; simp [scanLines] at hu
  | cons l rest ih =>
    intro inML idx u hu
    simp only [scanLines] at hu
    split at hu
    · exact ih _ _ u hu
    · split at hu
      · exact ih _ _ u hu
      · split at hu
        · exact ih _ _ u hu
        · rcases List.mem_append.mp hu with h1 | h2
          · exact usagesGo_meth_mem alts idx l _ _ u h1
          · exact ih _ _ u h2

/-- Claim C2, amended: an empty method allowlist does not make the pattern
match nothing — the joined pattern is a single empty alternative, so every
usage the scan still reports carries an empty method name (matched right
after the dot when a word character follows). -/
theorem c2_empty_allowlist_shape (text : String) :
    ∀ u ∈ findModelMethodUsages text [], u.methodName = "" := by
  intro u hu
  rw [findModelMethodUsages] at hu
  obtain ⟨m, hm, hmeq⟩ := scanLines_meth_mem (methodAlternatives []) _ _ _ u hu
  have : m = ([] : List Char) := by
    have halt : methodAlternatives [] = [[]] := rfl
    rw [halt] at hm
    simpa using hm
  rw [this] at hmeq
  exact hmeq

/-- Witness for C2's amended theorem: the usage reported on `await X.y;`
under the empty allowlist has an empty method name. -/
theorem c2_witness :
    (⟨0, 6, 7, "X", ""⟩ : Usage) ∈ findModelMethodUsages "await X.y;" [] ∧
    (⟨0, 6, 7, "X", ""⟩ : Usage).methodName = "" :=
  ⟨by decide, c2_empty_allowlist_shape "await X.y;" ⟨0, 6, 7, "X", ""⟩ (by decide)⟩

/-! ### Comment suppression -/

theorem usagesGo_line (alts : List (List Char)) (lineIdx : Nat) (cs : List Char) :
    ∀ fuel p u, u ∈ usagesGo alts lineIdx cs fuel p → u.line = lineIdx := by
  intro fuel
  induction fuel with
  | zero => intro p u hu; simp [usagesGo] at hu
  | succ n ih =>
    intro p u hu
    simp only [usagesGo] at hu
    split at hu
    · simp at hu
    · split at hu
      · rcases List.mem_cons.mp hu with h1 | h2
        · rw [h1]
        · exact ih _ u h2
      · exact ih _ u hu

theorem scanLines_line_ge (alts : List (List Char)) :
    ∀ ls inML idx u, u ∈ scanLines alts inML idx ls → idx ≤ u.line := by
  intro ls
  induction ls with
  | nil => intro inML idx u hu; simp [scanLines] at hu
  | cons l rest ih =>
    intro inML idx u hu
    simp only [scanLines] at hu
    split at hu
    · exact Nat.le_of_succ_le (ih _ _ u hu)
    · split at hu
      · exact Nat.le_of_succ_le (ih _ _ u hu)
      · split at hu
        · exact Nat.le_of_succ_le (ih _ _ u hu)
        · rcases List.mem_append.mp hu with h1 | h2
          · exact le_of_eq (usagesGo_line alts idx l _ _ u h1).symm
          · exact Nat.le_of_succ_le (ih _ _ u h2)

theorem scanLines_comment (alts : List (List Char)) :
    ∀ ls inML idx j, (commentFlags inML ls)[j]? = some true →
      ∀ u ∈ scanLines alts inML idx ls, u.line ≠ idx + j := by
  intro ls
  induction ls with
  | nil => intro inML idx j hj; simp [commentFlags] at hj
  | cons l rest ih =>
    intro inML idx j hj u hu
    simp only [commentFlags] at hj
    simp only [scanLines] at hu
    by_cases hin : (inML || hasSub "/*".data (trimChars l)) = true
    · rw [if_pos hin] at hj
      rw [if_pos hin] at hu
      cases j with
      | zero =>
        have := scanLines_line_ge alts rest _ _ u hu
        omega
      | succ j' =>
        have hj' : (commentFlags (!hasSub "*/".data (trimChars l)) rest)[j']? = some true := by
          simpa using hj
        have := ih _ (idx + 1) j' hj' u hu
        omega
    · rw [if_neg hin] at hj
      rw [if_neg hin] at hu
      by_cases hcom : prefixOfCh "//".data (trimChars l) = true
      · rw [if_pos hcom] at hu
        cases j with
        | zero =>
          have := scanLines_line_ge alts rest _ _ u hu
          omega
        | succ j' =>
          have hj' : (commentFlags false rest)[j']? = some true := by simpa using hj
          have := ih _ (idx + 1) j' hj' u hu
          omega
      · rw [if_neg hcom] at hu
        cases j with
        | zero =>
          simp only [List.getElem?_cons_zero] at hj
          injection hj with hj2
          exact absurd hj2 hcom
        | succ j' =>
          have hj' : (commentFlags false rest)[j']? = some true := by simpa using hj
          split at hu
          · have := ih _ (idx + 1) j' hj' u hu
            omega
          · rcases List.mem_append.mp hu with h1 | h2
            · have := usagesGo_line alts idx l _ _ u h1
              omega
            · have := ih _ (idx + 1) j' hj' u h2
              omega

/-- Claim C6: a usage site on a line classified as inside a comment never
produces a finding: whenever the comment classifier marks line `i` —
because its trimmed form starts with `//`, or it lies in a multi-line
comment span from the `/*` line up to and including the `*/` line — the
scan emits no finding located on line `i`. -/
theorem c6_comment_suppression (text : String) (methods : List String) (i : Nat)
    (h : (commentFlags false (textLines text))[i]? = some true) :
    ∀ f ∈ scanFindings text methods, f.line ≠ i := by
  intro f hf
  simp only [scanFindings, List.mem_map, List.mem_filter] at hf
  obtain ⟨u, ⟨hu, _⟩, rfl⟩ := hf
  rw [findModelMethodUsages] at hu
  have := scanLines_comment (methodAlternatives methods) (textLines text) false 0 i h u hu
  simpa using this

/-- Witness for C6: the single line `// await Ghost.find({});` is
classified as a comment line and yields no finding on line 0. -/
theorem c6_witness :
    (commentFlags false (textLines "// await Ghost.find(\x7b\x7d);"))[0]? = some true ∧
    ∀ f ∈ scanFindings "// await Ghost.find(\x7b\x7d);" defaultModelMethods, f.line ≠ 0 :=
  ⟨by decide, c6_comment_suppression "// await Ghost.find(\x7b\x7d);" defaultModelMethods 0 (by decide)⟩

/-! ### The fix insertion point -/

theorem insertLoop_const (ls : List (List Char))
    (h : ∀ l ∈ ls, importReqLineTest (trimChars l) = false) :
    ∀ last i, insertLoop ls last i = last := by
  induction ls with
  | nil => intro last i; rfl
  | cons l rest ih =>
    intro last i
    simp only [insertLoop, h l (List.mem_cons_self l rest), Bool.false_eq_true, if_false]
    split
    · rfl
    · exact ih (fun a ha => h a (List.mem_cons_of_mem l ha)) last (i + 1)

theorem insertLoop_some (ls : List (List Char)) :
    ∀ last i k, insertLoop ls last i = some k →
      last = some k ∨
        ∃ j l, ls[j]? = some l ∧ importReqLineTest (trimChars l) = true ∧ k = i + j := by
  induction ls with
  | nil => intro last i k h; exact Or.inl h
  | cons l rest ih =>
    intro last i k h
    simp only [insertLoop] at h
    by_cases himp : importReqLineTest (trimChars l) = true
    · rw [if_pos himp] at h
      split at h
      · injection h with h'
        exact Or.inr ⟨0, l, by simp, himp, by omega⟩
      · rcases ih (some i) (i + 1) k h with h1 | ⟨j, l', hj, hb, hkj⟩
        · injection h1 with h'
          exact Or.inr ⟨0, l, by simp, himp, by omega⟩
        · exact Or.inr ⟨j + 1, l', by simpa using hj, hb, by omega⟩
    · rw [if_neg himp] at h
      split at h
      · exact Or.inl h
      · rcases ih last (i + 1) k h with h1 | ⟨j, l', hj, hb, hkj⟩
        · exact Or.inl h1
        · exact Or.inr ⟨j + 1, l', by simpa using hj, hb, by omega⟩

/-- Claim C7, amended: the insertion point is (0, 0) when the document
contains no import/require-matching line at all (the scan only freezes at
a real-code line once an import/require line has been seen, so a document
whose real code precedes a later import still gets the position after
that import); otherwise the insertion point is (k + 1, 0) where line k
is an import/require-matching line. -/
theorem c7_insert_position (text : String) :
    ((∀ l ∈ textLines text, importReqLineTest (trimChars l) = false) →
        findImportInsertPosition text = (0, 0)) ∧
    (∀ k, findImportInsertPosition text = (k + 1, 0) →
        ∃ l, (textLines text)[k]? = some l ∧ importReqLineTest (trimChars l) = true) := by
  constructor
  · intro h
    unfold findImportInsertPosition
    rw [insertLoop_const (textLines text) h none 0]
  · intro k hk
    unfold findImportInsertPosition at hk
    cases hloop : insertLoop (textLines text) none 0 with
    | none =>
      rw [hloop] at hk
      exact absurd (congrArg Prod.fst hk) (by simp)
    | some m =>
      rw [hloop] at hk
      have hm : m = k := by
        have := congrArg Prod.fst hk
        simpa using this
      subst hm
      rcases insertLoop_some (textLines text) none 0 m hloop with h1 | ⟨j, l, hj, hb, hkj⟩
      · exact Option.noConfusion h1
      · have : j = m := by omega
        subst this
        exact ⟨l, hj, hb⟩

/-- Witness for C7's amended theorem: a document with no import/require
line gets the insertion point (0, 0). -/
theorem c7_witness : findImportInsertPosition "x();" = (0, 0) :=
  (c7_insert_position "x();").1 (by decide)

/-! ### Round-trip between the finding message and the quick-fix name -/

theorem strData_append (s t : String) : (s ++ t).data = s.data ++ t.data := rfl

theorem extractAt_message (N : String) (h1 : N.data ≠ [])
    (h2 : ∀ c ∈ N.data, isWordChar c = true) :
    extractAt ("Model '".data ++
        (N.data ++ "' is not imported. Please import the model before using it.".data)) =
      some N.data := by
  have e3 : ((N.data ++
      "' is not imported. Please import the model before using it.".data).takeWhile
        isWordChar) = N.data := by
    rw [takeWhile_append_all isWordChar N.data _ h2]
    have : ("' is not imported. Please import the model before using it.".data).takeWhile
        isWordChar = [] := by decide
    rw [this, List.append_nil]
  have e4 : N.data.isEmpty = false := by
    cases hN : N.data with
    | nil => exact absurd hN h1
    | cons a l => rfl
  have e6 : prefixOfCh "' is not imported".data
      "' is not imported. Please import the model before using it.".data = true := by
    decide
  unfold extractAt
  rw [prefixOfCh_append, if_pos rfl, drop_length_append, e3, drop_length_append, e4, e6]
  rfl

theorem c9_aux_scan (N : String) (h1 : N.data ≠ [])
    (h2 : ∀ c ∈ N.data, isWordChar c = true) :
    extractScan ("Model '".data ++
        (N.data ++ "' is not imported. Please import the model before using it.".data)) =
      some N.data := by
  rw [show ("Model '".data ++
      (N.data ++ "' is not imported. Please import the model before using it.".data)) =
      'M' :: ("odel '".data ++
        (N.data ++ "' is not imported. Please import the model before using it.".data))
    from rfl]
  simp only [extractScan]
  rw [show extractAt ('M' :: ("odel '".data ++
      (N.data ++ "' is not imported. Please import the model before using it.".data))) =
      some N.data from extractAt_message N h1 h2]

/-- Claim C9: for every identifier name `N` that is non-empty and made of
word characters only (which covers every name the usage scanner can
produce), extracting the model name from the reconciler's message for `N`
returns exactly `N`, so every finding yields a fix action targeting the
identifier the finding reported. -/
theorem c9_message_roundtrip (N : String) (h1 : N.data ≠ [])
    (h2 : ∀ c ∈ N.data, isWordChar c = true) :
    extractModelName (mkMessage N) = some N := by
  have hd : (mkMessage N).data = "Model '".data ++
      (N.data ++ "' is not imported. Please import the model before using it.".data) := by
    rw [mkMessage, strData_append, strData_append, List.append_assoc]
  rw [extractModelName, hd, c9_aux_scan N h1 h2]
  rfl

/-- Witness for C9: the round trip at the concrete name `User`. -/
theorem c9_witness : extractModelName (mkMessage "User") = some "User" :=
  c9_message_roundtrip "User" (by decide) (by decide)

end ImportChecker
